import Mathlib

/-! # Verification of the census measure-resolution engine

Shallow embedding of the resolver code in `src/resolver.py` and
`src/src/single_agent/resolver.py`.

Modelling conventions:
* Python strings are lists of Unicode code points (`List Nat`); `s2l`
  converts a Lean string literal to that form.
* `str.lower`, `str.strip`, `str.split`, `str.isalpha` are modelled on the
  ASCII range (the data the resolver handles is ASCII apart from one `²`
  in a display label, which no case/space operation touches).
* The external fuzzy primitive `rapidfuzz.fuzz.token_set_ratio` is a
  parameter `sim` of the scoring pipeline.
* Scores are rationals (the Python floats 0.7, 0.3, 0.5 are exact
  binary/decimal constants; no rounding questions arise in the claims).
* Raising a Python exception is modelled with `Except`: `PyErr.requestError`
  for a failed download (`requests` exception / raise_for_status) and
  `PyErr.keyError` for a missing pandas column.
* `pandas.DataFrame` built from an empty record list has no columns, so
  `df["label"]` raises `KeyError: 'label'`; the model makes that branch
  explicit in `resolve_measure`.
* The derived-metric `formula` closures are not modelled (no claim
  inspects them); each registry entry keeps its `label`, `variables` and
  `needs_area` fields.
-/

namespace Census

/-- Code points of a string literal. -/
def s2l (s : String) : List Nat := s.data.map Char.toNat

/-- ASCII model of Python `str.lower` on one code point. -/
def lowerChar (n : Nat) : Nat := if 65 ≤ n ∧ n ≤ 90 then n + 32 else n

/-- Python `str.lower` (ASCII model). -/
def pyLower (s : List Nat) : List Nat := s.map lowerChar

/-- ASCII whitespace: what `str.strip()` strips and `str.split()` splits on. -/
def isSpaceChar (n : Nat) : Bool :=
  decide (n = 32 ∨ n = 9 ∨ n = 10 ∨ n = 11 ∨ n = 12 ∨ n = 13)

/-- Python `str.strip()`. -/
def pyStrip (s : List Nat) : List Nat :=
  ((s.dropWhile isSpaceChar).reverse.dropWhile isSpaceChar).reverse

/-- Python substring test `pat in s`. -/
def containsSub (pat : List Nat) : List Nat → Bool
  | [] => pat.isEmpty
  | c :: t => pat.isPrefixOf (c :: t) || containsSub pat t

/-- Python `s.replace(pat, rep)` for a non-empty pattern: leftmost-first,
    non-overlapping replacement. -/
def pyReplace (pat rep : List Nat) : List Nat → List Nat
  | [] => []
  | c :: t =>
    if pat.isPrefixOf (c :: t) then rep ++ pyReplace pat rep (t.drop (pat.length - 1))
    else c :: pyReplace pat rep t
termination_by s => s.length
decreasing_by
  · simp only [List.length_cons, List.length_drop]; omega
  · simp only [List.length_cons]; omega

/-- Python `str.split()`: maximal whitespace runs separate tokens, empty
    tokens are discarded. -/
def splitWs : List Nat → List (List Nat)
  | [] => []
  | c :: t =>
    if isSpaceChar c then splitWs t
    else (c :: t.takeWhile (fun d => !isSpaceChar d)) ::
      splitWs (t.dropWhile (fun d => !isSpaceChar d))
termination_by s => s.length
decreasing_by
  · simp only [List.length_cons]; omega
  · have h : (t.dropWhile (fun d => !isSpaceChar d)).length ≤ t.length :=
      (List.dropWhile_sublist _).length_le
    simp only [List.length_cons]; omega

/-- Python `sep.join(parts)`. -/
def joinWith (sep : List Nat) : List (List Nat) → List Nat
  | [] => []
  | [t] => t
  | t :: ts => t ++ sep ++ joinWith sep ts

/-- `clean_census_label` from `src/src/single_agent/resolver.py`
    (lines 66-93): drop the `Estimate!!` / `Annotation!!` prefixes wherever
    they occur, turn remaining `!!` separators into spaces, and normalise
    whitespace with `" ".join(label.split())`.  The empty string is falsy
    and returned unchanged. -/
def clean_census_label (label : List Nat) : List Nat :=
  if label = [] then label
  else
    let l1 := pyReplace (s2l "Estimate!!") [] label
    let l2 := pyReplace (s2l "Annotation!!") [] l1
    let l3 := pyReplace (s2l "!!") (s2l " ") l2
    joinWith (s2l " ") (splitWs l3)

/-- One entry of `DERIVED_METRICS` (the `formula` closure is not modelled).
    `vars` is the `variables` key of the Python dict (`variables` is a
    reserved word in Lean). -/
structure DerivedMetric where
  label : List Nat
  vars : List (List Nat)
  needs_area : Bool
deriving DecidableEq

/-- The "population density" registry entry. -/
def densityMetric : DerivedMetric :=
  ⟨s2l "Population Density (per km²)", [s2l "B01003_001E"], true⟩

/-- The "poverty rate" registry entry. -/
def povertyMetric : DerivedMetric :=
  ⟨s2l "Poverty Rate (%)", [s2l "B17001_002E", s2l "B01001_001E"], false⟩

/-- The "african american share" registry entry. -/
def shareMetric : DerivedMetric :=
  ⟨s2l "African American Population Share (%)",
    [s2l "B02001_003E", s2l "B02001_001E"], false⟩

/-- The `DERIVED_METRICS` registry (identical in both resolver files). -/
def DERIVED_METRICS : List (List Nat × DerivedMetric) :=
  [(s2l "population density", densityMetric),
   (s2l "poverty rate", povertyMetric),
   (s2l "african american share", shareMetric)]

/-- The `MEASURE_SYNONYMS` table (identical in both resolver files). -/
def MEASURE_SYNONYMS : List (List Nat × List Nat) :=
  [(s2l "median income", s2l "median household income"),
   (s2l "income", s2l "median household income"),
   (s2l "percent black", s2l "african american share"),
   (s2l "black share", s2l "african american share"),
   (s2l "percent african american", s2l "african american share"),
   (s2l "pop density", s2l "population density"),
   (s2l "density", s2l "population density")]

/-- `normalize_measure`: lower-case, trim, then exact synonym lookup with
    the trimmed text as fallback (`dict.get(key, key)`). -/
def normalize_measure (phrase : List Nat) : List Nat :=
  let p := pyStrip (pyLower phrase)
  (List.lookup p MEASURE_SYNONYMS).getD p

/-- One row of the catalog DataFrame built by `get_census_variables_cached`.
    `src/resolver.py` has no `description` column and never reads one; the
    single-agent version fills it with `_create_variable_description`. -/
structure VariableRecord where
  variable_id : List Nat
  label : List Nat
  concept : List Nat
  description : List Nat
deriving DecidableEq

def isUpperChar (n : Nat) : Bool := decide (65 ≤ n ∧ n ≤ 90)

def isDigitChar (n : Nat) : Bool := decide (48 ≤ n ∧ n ≤ 57)

def isAlphaChar (n : Nat) : Bool := isUpperChar n || decide (97 ≤ n ∧ n ≤ 122)

/-- The `table` column: pandas `str.extract` with the anchored pattern
    "uppercase run then digit run"; `none` models the NaN of a failed
    match.  Greedy matching with this pattern never backtracks
    successfully, so the maximal runs are the only possible match. -/
def extractTable (vid : List Nat) : Option (List Nat) :=
  let letters := vid.takeWhile isUpperChar
  let digits := (vid.drop letters.length).takeWhile isDigitChar
  if letters = [] ∨ digits = [] then none else some (letters ++ digits)

/-- The `table_penalty` helper nested in `resolve_measure` (verbatim
    identical in both resolver files): DP=0, S=0.5, B=1.0, anything else
    (including NaN) = 2.0. -/
def table_penalty : Option (List Nat) → ℚ
  | none => 2
  | some p =>
    if (s2l "DP").isPrefixOf p then 0
    else if (s2l "S").isPrefixOf p then 1/2
    else if (s2l "B").isPrefixOf p then 1
    else 2

/-- The external `rapidfuzz.fuzz.token_set_ratio` primitive; the pipeline
    is parametric in it. -/
abbrev SimFn := List Nat → List Nat → ℚ

/-- The combined fuzzy score `label_score * 0.7 + concept_score * 0.3`,
    where each similarity is taken against the lower-cased text. -/
def baseScore (sim : SimFn) (phrase : List Nat) (r : VariableRecord) : ℚ :=
  sim phrase (pyLower r.label) * (7/10) + sim phrase (pyLower r.concept) * (3/10)

/-- The `adjusted_score` column of `src/resolver.py` (no demographic or
    main-estimate adjustment in that file). -/
def adjustedScore (sim : SimFn) (phrase : List Nat) (r : VariableRecord) : ℚ :=
  baseScore sim phrase r - table_penalty (extractTable r.variable_id)

/-- `demographic_keywords` from `src/src/single_agent/resolver.py`. -/
def demographic_keywords : List (List Nat) :=
  [s2l "white alone", s2l "black alone", s2l "african american alone", s2l "asian alone",
   s2l "hispanic", s2l "latino", s2l "native hawaiian", s2l "pacific islander",
   s2l "american indian", s2l "alaska native", s2l "two or more races",
   s2l "nonveteran", s2l "veteran", s2l "food stamps", s2l "snap",
   s2l "foreign born", s2l "native born", s2l "citizen", s2l "noncitizen",
   s2l "renter occupied", s2l "owner occupied", s2l "with a mortgage",
   s2l "without a mortgage",
   s2l "male householder", s2l "female householder", s2l "nonfamily household"]

/-- `has_demographic_filter`: some keyword occurs in the lower-cased text
    (labels and concepts are strings here, so the `pd.isna` guard is never
    taken). -/
def has_demographic_filter (text : List Nat) : Bool :=
  demographic_keywords.any (fun k => containsSub k (pyLower text))

/-- The `has_demographic` column: filter hit in concept or label. -/
def has_demographic (r : VariableRecord) : Bool :=
  has_demographic_filter r.concept || has_demographic_filter r.label

/-- The `is_main_estimate` column: `variable_id.str.endswith("_001E")`. -/
def is_main_estimate (r : VariableRecord) : Bool :=
  (s2l "_001E").isSuffixOf r.variable_id

/-- The single-agent `score` column after the -15 demographic penalty and
    the +5 main-estimate boost. -/
def SingleAgent.score (sim : SimFn) (phrase : List Nat) (r : VariableRecord) : ℚ :=
  let s0 := baseScore sim phrase r
  let s1 := if has_demographic r then s0 - 15 else s0
  if is_main_estimate r then s1 + 5 else s1

/-- The single-agent `adjusted_score` column: score minus table penalty. -/
def SingleAgent.adjustedScore (sim : SimFn) (phrase : List Nat) (r : VariableRecord) : ℚ :=
  SingleAgent.score sim phrase r - table_penalty (extractTable r.variable_id)

/-- A result dict of `resolve_measure`; keys a given call does not put in
    its dict are `none`. -/
structure Candidate where
  variable_id : List Nat
  label : List Nat
  concept : List Nat
  score : ℚ
  is_derived : Bool
  vars : Option (List (List Nat))
  needs_area : Option Bool
  description : Option (List Nat)
deriving DecidableEq

/-- The dict returned on a derived-registry hit (identical in both files):
    sentinel id, registry label, the normalized phrase as concept, fixed
    score 100, `is_derived=True`, plus the registry payload. -/
def derivedCandidate (nphrase : List Nat) (m : DerivedMetric) : Candidate :=
  ⟨s2l "DERIVED", m.label, nphrase, 100, true, some m.vars, some m.needs_area, none⟩

/-- A non-derived result dict of `src/resolver.py` (raw label, no
    description key). -/
def mkCandidate (sim : SimFn) (phrase : List Nat) (r : VariableRecord) : Candidate :=
  ⟨r.variable_id, r.label, r.concept, adjustedScore sim phrase r, false, none, none, none⟩

/-- A non-derived result dict of the single-agent resolver: cleaned label
    and the description column. -/
def SingleAgent.mkCandidate (sim : SimFn) (phrase : List Nat) (r : VariableRecord) :
    Candidate :=
  ⟨r.variable_id, clean_census_label r.label, r.concept,
    SingleAgent.adjustedScore sim phrase r, false, none, none, some r.description⟩

/-- Python exceptions the modelled code can raise. -/
inductive PyErr where
  | requestError
  | keyError (key : List Nat)
deriving DecidableEq

/-- `df.sort_values("adjusted_score", ascending=False)`.  pandas leaves the
    order of equal keys unspecified; the model fixes a stable descending
    sort, and no verified property depends on tie order. -/
def sortByScoreDesc (f : VariableRecord → ℚ) (l : List VariableRecord) :
    List VariableRecord :=
  List.insertionSort (fun a b => f b ≤ f a) l

/-- `resolve_measure` from `src/resolver.py` (lines 125-190), with the
    catalog DataFrame passed explicitly in place of the
    `get_census_variables_cached(year)` call and the external
    `token_set_ratio` as the parameter `sim`.  On the derived path the
    catalog is never consulted.  An empty catalog is a DataFrame with no
    columns, so `df["label"]` raises `KeyError: 'label'`. -/
def resolve_measure (sim : SimFn) (phrase : List Nat) (catalog : List VariableRecord)
    (top_n : Nat) : Except PyErr (List Candidate) :=
  let pn := normalize_measure phrase
  match List.lookup pn DERIVED_METRICS with
  | some m => .ok [derivedCandidate pn m]
  | none =>
    if catalog = [] then .error (.keyError (s2l "label"))
    else .ok (((sortByScoreDesc (adjustedScore sim pn) catalog).take top_n).map
      (mkCandidate sim pn))

/-- `resolve_measure` from `src/src/single_agent/resolver.py`
    (lines 209-303): same structure with the demographic penalty, the
    main-estimate boost, and the cleaned label / description in the
    result dicts. -/
def SingleAgent.resolve_measure (sim : SimFn) (phrase : List Nat)
    (catalog : List VariableRecord) (top_n : Nat) : Except PyErr (List Candidate) :=
  let pn := normalize_measure phrase
  match List.lookup pn DERIVED_METRICS with
  | some m => .ok [derivedCandidate pn m]
  | none =>
    if catalog = [] then .error (.keyError (s2l "label"))
    else .ok (((sortByScoreDesc (SingleAgent.adjustedScore sim pn) catalog).take top_n).map
      (SingleAgent.mkCandidate sim pn))

/-- `get_derived_metric_info` (identical in both resolver files). -/
def get_derived_metric_info (measure : List Nat) : Option DerivedMetric :=
  List.lookup (normalize_measure measure) DERIVED_METRICS

/-- One value of the raw variables JSON: a dict with (defaulted) label,
    concept and predicateType, or a non-dict entry. -/
inductive VarMeta where
  | dict (label concept predicateType : List Nat)
  | other
deriving DecidableEq

abbrev VarListing := List (List Nat × VarMeta)

/-- Environment of one `get_census_variables_cached` call: the on-disk
    snapshot (mtime in seconds and parsed `variables` object), the clock,
    and what a network download would yield (`requestError` when the
    fetch raises). -/
structure CacheEnv where
  snapshot : Option (Int × VarListing)
  now : Int
  network : Except PyErr VarListing

/-- The record filter of `get_census_variables_cached`: dict-valued meta,
    predicateType in int/float/string, an underscore in the id, a leading
    (ASCII-modelled) alphabetic character, and a literal `E` somewhere in
    the id (the code tests membership, not a suffix). -/
def qualifies (vid : List Nat) (m : VarMeta) : Bool :=
  match m with
  | .other => false
  | .dict _ _ pt =>
    (pt == s2l "int" || pt == s2l "float" || pt == s2l "string")
      && containsSub (s2l "_") vid
      && (match vid with | [] => false | c :: _ => isAlphaChar c)
      && containsSub (s2l "E") vid

/-- The coarse topic category of `_create_variable_description` (the
    elif chain over the table prefix), as the at-most-one part it adds. -/
def category_for (tablePref : List Nat) : List (List Nat) :=
  if (s2l "B01").isPrefixOf tablePref then [s2l "Category: Population and Age"]
  else if (s2l "B02").isPrefixOf tablePref then [s2l "Category: Race"]
  else if (s2l "B03").isPrefixOf tablePref then [s2l "Category: Hispanic/Latino Origin"]
  else if (s2l "B17").isPrefixOf tablePref then [s2l "Category: Poverty Status"]
  else if (s2l "B19").isPrefixOf tablePref then [s2l "Category: Income"]
  else if (s2l "B23").isPrefixOf tablePref then [s2l "Category: Employment Status"]
  else if (s2l "B25").isPrefixOf tablePref then [s2l "Category: Housing Characteristics"]
  else []

/-- `_create_variable_description` from the single-agent resolver
    (lines 148-192). -/
def create_variable_description (vid label concept : List Nat) : List Nat :=
  let clean_label := clean_census_label label
  let measuresPart := if clean_label = [] then [] else [s2l "Measures: " ++ clean_label]
  let contextPart :=
    if concept ≠ [] ∧ pyLower concept ≠ pyLower clean_label then
      let clean_concept := clean_census_label concept
      if containsSub (pyLower clean_concept) (pyLower clean_label) then []
      else [s2l "Context: " ++ clean_concept]
    else []
  let tablePref :=
    if containsSub (s2l "_") vid then vid.takeWhile (fun n => n != 95) else []
  let mainPart :=
    if (s2l "_001E").isSuffixOf vid then [s2l "Type: Main estimate or total"] else []
  let parts := measuresPart ++ contextPart ++ category_for tablePref ++ mainPart
  if parts = [] then clean_label else joinWith (s2l " | ") parts

/-- The DataFrame rows built from the raw listing (single-agent version;
    `src/resolver.py` builds the same rows without the description
    column, which nothing on its paths reads). -/
def buildRecords (data : VarListing) : List VariableRecord :=
  data.filterMap (fun p =>
    match p.2 with
    | .other => none
    | .dict label concept pt =>
      if qualifies p.1 (.dict label concept pt) then
        some ⟨p.1, label, concept, create_variable_description p.1 label concept⟩
      else none)

/-- `get_census_variables_cached` (identical control flow in both files,
    lines 66-108 and 96-145): use the snapshot when it exists and is
    younger than the TTL, otherwise call `_download_variables`, whose
    failure raises — there is no exception handler on that path, so a
    stale snapshot is never used as a fallback. -/
def get_census_variables_cached (env : CacheEnv) (ttl_days : Nat) :
    Except PyErr (List VariableRecord) :=
  (match env.snapshot with
    | some (mtime, data) =>
      if env.now - mtime < (ttl_days : Int) * 86400 then Except.ok data else env.network
    | none => env.network).map buildRecords

instance {ε α : Type} [DecidableEq ε] [DecidableEq α] : DecidableEq (Except ε α) :=
  fun x y =>
    match x, y with
    | .ok a, .ok b =>
      if h : a = b then isTrue (by rw [h]) else isFalse (by intro hh; cases hh; exact h rfl)
    | .error e, .error f =>
      if h : e = f then isTrue (by rw [h]) else isFalse (by intro hh; cases hh; exact h rfl)
    | .ok _, .error _ => isFalse (by intro hh; cases hh)
    | .error _, .ok _ => isFalse (by intro hh; cases hh)

/-! ### Concrete instances used to evaluate the verified statements -/

/-- A degenerate similarity oracle (constant 0); the structural properties
    hold for every `sim`, so any concrete one will do for evaluation. -/
def simZero : SimFn := fun _ _ => 0

/-- A catalog row: the main median-household-income estimate. -/
def recIncomeMain : VariableRecord :=
  ⟨s2l "B19013_001E", s2l "Estimate!!Median household income",
    s2l "Median Household Income", []⟩

/-- A catalog row: a non-main income sub-estimate, no demographic
    qualifier. -/
def recIncomeSub : VariableRecord :=
  ⟨s2l "B19013_002E", s2l "Estimate!!Median household income",
    s2l "Median Household Income", []⟩

/-- A catalog row whose label carries the demographic qualifier
    "veteran"; same table family and sub-estimate shape as
    `recIncomeSub`. -/
def recVeteran : VariableRecord :=
  ⟨s2l "B21001_002E", s2l "Estimate!!Veteran household income",
    s2l "Veterans", []⟩

/-- A one-variable raw listing for cache scenarios. -/
def staleListing : VarListing :=
  [(s2l "B01001_001E", .dict (s2l "Estimate!!Total") (s2l "Sex by Age") (s2l "int"))]

/-- A cache environment whose snapshot is exactly as old as the 14-day
    TTL (hence stale) and whose network fetch fails. -/
def envStale : CacheEnv :=
  ⟨some (0, staleListing), 14 * 86400, .error .requestError⟩

/-!  ## Helper lemmas -/

lemma resolve_measure_derived_eq (sim : SimFn) (phrase : List Nat)
    (catalog : List VariableRecord) (top_n : Nat) (m : DerivedMetric)
    (h : List.lookup (normalize_measure phrase) DERIVED_METRICS = some m) :
    resolve_measure sim phrase catalog top_n =
      .ok [derivedCandidate (normalize_measure phrase) m] := by
  simp only [resolve_measure]
  rw [h]

lemma sa_resolve_measure_derived_eq (sim : SimFn) (phrase : List Nat)
    (catalog : List VariableRecord) (top_n : Nat) (m : DerivedMetric)
    (h : List.lookup (normalize_measure phrase) DERIVED_METRICS = some m) :
    SingleAgent.resolve_measure sim phrase catalog top_n =
      .ok [derivedCandidate (normalize_measure phrase) m] := by
  simp only [SingleAgent.resolve_measure]
  rw [h]

lemma lowerChar_idem (n : Nat) : lowerChar (lowerChar n) = lowerChar n := by
  unfold lowerChar
  split_ifs <;> omega

lemma isSpace_lower (n : Nat) : isSpaceChar (lowerChar n) = isSpaceChar n := by
  unfold isSpaceChar lowerChar
  split_ifs with h
  · rw [decide_eq_decide]
    omega
  · rfl

lemma pyLower_idem (s : List Nat) : pyLower (pyLower s) = pyLower s := by
  simp only [pyLower, List.map_map]
  exact List.map_congr_left (fun a _ => lowerChar_idem a)

lemma pyStrip_pyLower (s : List Nat) : pyStrip (pyLower s) = pyLower (pyStrip s) := by
  have hpf : (isSpaceChar ∘ lowerChar) = isSpaceChar := funext isSpace_lower
  simp only [pyStrip, pyLower, List.dropWhile_map, hpf, ← List.map_reverse]

lemma dropWhile_self (p : Nat → Bool) (l : List Nat) :
    (l.dropWhile p).dropWhile p = l.dropWhile p := by
  cases h : l.dropWhile p with
  | nil => rfl
  | cons x xs =>
    have hh := List.head?_dropWhile_not p l
    rw [h] at hh
    simp only [List.head?_cons] at hh
    rw [List.dropWhile_cons_of_neg (by simp [hh])]

lemma pyStrip_idem (s : List Nat) : pyStrip (pyStrip s) = pyStrip s := by
  have h1 : (pyStrip s).dropWhile isSpaceChar = pyStrip s := by
    have hpre : pyStrip s <+: (s.dropWhile isSpaceChar) := by
      apply List.reverse_suffix.mp
      simp only [pyStrip, List.reverse_reverse]
      exact List.dropWhile_suffix isSpaceChar
    cases hB : pyStrip s with
    | nil => rfl
    | cons b bt =>
      obtain ⟨t, ht⟩ := hpre
      rw [hB] at ht
      have hpb : isSpaceChar b = false := by
        have hh := List.head?_dropWhile_not isSpaceChar s
        rw [← ht] at hh
        simp only [List.cons_append, List.head?_cons] at hh
        exact hh
      rw [List.dropWhile_cons_of_neg (by simp [hpb])]
  calc pyStrip (pyStrip s)
      = (((pyStrip s).dropWhile isSpaceChar).reverse.dropWhile isSpaceChar).reverse := rfl
    _ = ((pyStrip s).reverse.dropWhile isSpaceChar).reverse := by rw [h1]
    _ = ((((s.dropWhile isSpaceChar).reverse.dropWhile isSpaceChar).dropWhile
          isSpaceChar)).reverse := by
        simp only [pyStrip, List.reverse_reverse]
    _ = ((s.dropWhile isSpaceChar).reverse.dropWhile isSpaceChar).reverse := by
        rw [dropWhile_self]
    _ = pyStrip s := rfl

lemma lookup_syn_val {p v : List Nat} (h : List.lookup p MEASURE_SYNONYMS = some v) :
    pyStrip (pyLower v) = v ∧ List.lookup v MEASURE_SYNONYMS = none := by
  simp only [MEASURE_SYNONYMS, List.lookup] at h
  repeat' split at h
  all_goals first
    | (injection h with h; subst h; exact ⟨by decide, by decide⟩)
    | exact Option.noConfusion h

lemma sa_resolve_pairwise (sim : SimFn) (phrase : List Nat)
    (catalog : List VariableRecord) (top_n : Nat) (l : List Candidate)
    (hok : SingleAgent.resolve_measure sim phrase catalog top_n = Except.ok l) :
    l.Pairwise (fun a b => b.score ≤ a.score) := by
  cases hlk : List.lookup (normalize_measure phrase) DERIVED_METRICS with
  | some m =>
    simp only [SingleAgent.resolve_measure, hlk] at hok
    injection hok with hok
    subst hok
    simp
  | none =>
    simp only [SingleAgent.resolve_measure, hlk] at hok
    by_cases hc : catalog = []
    · rw [if_pos hc] at hok
      exact Except.noConfusion hok
    · rw [if_neg hc] at hok
      have hl : l = ((sortByScoreDesc (SingleAgent.adjustedScore sim (normalize_measure
          phrase)) catalog).take top_n).map
          (SingleAgent.mkCandidate sim (normalize_measure phrase)) := by
        cases hok; rfl
      subst hl
      set f := SingleAgent.adjustedScore sim (normalize_measure phrase) with hf
      haveI h1 : IsTotal VariableRecord (fun a b => f b ≤ f a) :=
        ⟨fun a b => le_total (f b) (f a)⟩
      haveI h2 : IsTrans VariableRecord (fun a b => f b ≤ f a) :=
        ⟨fun a b c hab hbc => le_trans hbc hab⟩
      have hsorted : (List.insertionSort (fun a b => f b ≤ f a) catalog).Pairwise
          (fun a b => f b ≤ f a) :=
        List.sorted_insertionSort (fun a b => f b ≤ f a) catalog
      have htake : ((sortByScoreDesc f catalog).take top_n).Pairwise
          (fun a b => f b ≤ f a) :=
        hsorted.sublist (List.take_sublist top_n _)
      exact List.pairwise_map.mpr htake

/-! Helper lemmas for the label-cleaning claim. -/


lemma pyReplace_nil (pat rep : List Nat) : pyReplace pat rep [] = [] := by
  simp [pyReplace]

lemma pyReplace_cons (pat rep : List Nat) (c : Nat) (t : List Nat) :
    pyReplace pat rep (c :: t) =
      if pat.isPrefixOf (c :: t) then rep ++ pyReplace pat rep (t.drop (pat.length - 1))
      else c :: pyReplace pat rep t := by
  rw [pyReplace]

lemma splitWs_nil : splitWs [] = [] := by
  simp [splitWs]

lemma splitWs_cons (c : Nat) (t : List Nat) :
    splitWs (c :: t) =
      if isSpaceChar c then splitWs t
      else (c :: t.takeWhile (fun d => !isSpaceChar d)) ::
        splitWs (t.dropWhile (fun d => !isSpaceChar d)) := by
  rw [splitWs]

lemma containsSub_iff {pat s : List Nat} : containsSub pat s = true ↔ pat <:+: s := by
  induction s with
  | nil =>
    simp only [containsSub, List.isEmpty_iff, List.infix_nil]
  | cons c t ih =>
    simp only [containsSub, Bool.or_eq_true, ih, List.infix_cons_iff,
       List.isPrefixOf_iff_prefix]

lemma pyReplace_of_not_infix (pat rep : List Nat) :
    ∀ s : List Nat, ¬ pat <:+: s → pyReplace pat rep s = s := by
  have key : ∀ (n : Nat) (s : List Nat), s.length ≤ n → ¬ pat <:+: s →
      pyReplace pat rep s = s := by
    intro n
    induction n with
    | zero =>
      intro s hs _
      have : s = [] := List.length_eq_zero.mp (Nat.le_zero.mp hs)
      subst this
      exact pyReplace_nil pat rep
    | succ n ih =>
      intro s hs h
      cases s with
      | nil => exact pyReplace_nil pat rep
      | cons c t =>
        rw [pyReplace_cons]
        have hnp : pat.isPrefixOf (c :: t) = false := by
          cases hb : pat.isPrefixOf (c :: t) with
          | false => rfl
          | true =>
            exact absurd ( List.isPrefixOf_iff_prefix.mp hb).isInfix h
        rw [hnp]
        simp only [Bool.false_eq_true, if_false, List.cons.injEq, true_and]
        apply ih t (by simp only [List.length_cons] at hs; omega)
        intro hinf
        exact h (List.infix_cons_iff.mpr (Or.inr hinf))
  exact fun s => key s.length s le_rfl

lemma single33_elim {l : List Nat} (h : [33] <+: l) : ∃ t, l = 33 :: t := by
  cases l with
  | nil => exact absurd h (by simp)
  | cons c t =>
    obtain ⟨hc, -⟩ := List.cons_prefix_cons.mp h
    exact ⟨t, by rw [← hc]⟩

lemma replace_bb_no_bb :
    ∀ s : List Nat, ¬ [33, 33] <:+: pyReplace [33, 33] [32] s := by
  have key : ∀ (n : Nat) (s : List Nat), s.length ≤ n →
      ¬ [33, 33] <:+: pyReplace [33, 33] [32] s := by
    intro n
    induction n with
    | zero =>
      intro s hs
      have : s = [] := List.length_eq_zero.mp (Nat.le_zero.mp hs)
      subst this
      rw [pyReplace_nil]
      simp
    | succ n ih =>
      intro s hs
      cases s with
      | nil =>
        rw [pyReplace_nil]
        simp
      | cons c t =>
        rw [pyReplace_cons]
        cases hb : ([33, 33] : List Nat).isPrefixOf (c :: t) with
        | true =>
          have hpre :=  List.isPrefixOf_iff_prefix.mp hb
          obtain ⟨hc, hrest⟩ := List.cons_prefix_cons.mp hpre
          obtain ⟨t', ht'⟩ := single33_elim hrest
          subst ht'
          simp only [if_true, List.length_cons, List.cons_append, List.nil_append,
            List.drop_succ_cons, List.drop_zero]
          intro hinf
          rcases List.infix_cons_iff.mp hinf with hp | hi
          · obtain ⟨h32, -⟩ := List.cons_prefix_cons.mp hp
            omega
          · have hlen : t'.length ≤ n := by
              simp only [List.length_cons] at hs
              omega
            exact ih t' hlen hi
        | false =>
          simp only [Bool.false_eq_true, if_false]
          intro hinf
          rcases List.infix_cons_iff.mp hinf with hp | hi
          · obtain ⟨hc, hrest⟩ := List.cons_prefix_cons.mp hp
            -- c = 33 and the replaced tail starts with 33
            have hnb : ¬ [33] <+: t := by
              intro h33
              rw [← hc] at hb
              have : ([33, 33] : List Nat).isPrefixOf (33 :: t) = true := by
                apply  List.isPrefixOf_iff_prefix.mpr
                exact List.cons_prefix_cons.mpr ⟨rfl, h33⟩
              rw [this] at hb
              exact Bool.noConfusion hb
            cases t with
            | nil =>
              rw [pyReplace_nil] at hrest
              exact absurd hrest (by simp)
            | cons d t'' =>
              have hd : d ≠ 33 := by
                intro hd
                exact hnb (List.cons_prefix_cons.mpr ⟨hd.symm, List.nil_prefix⟩)
              have hneq : ([33, 33] : List Nat).isPrefixOf (d :: t'') = false := by
                cases hb2 : ([33, 33] : List Nat).isPrefixOf (d :: t'') with
                | false => rfl
                | true =>
                  obtain ⟨hd2, -⟩ := List.cons_prefix_cons.mp
                    ( List.isPrefixOf_iff_prefix.mp hb2)
                  exact absurd hd2.symm hd
              rw [pyReplace_cons, hneq] at hrest
              simp only [Bool.false_eq_true, if_false] at hrest
              obtain ⟨hd3, -⟩ := List.cons_prefix_cons.mp hrest
              exact hd hd3.symm
          · have hlen : t.length ≤ n := by
              simp only [List.length_cons] at hs
              omega
            exact ih t hlen hi
  exact fun s => key s.length s le_rfl



lemma takeWhile_append_all {q : Nat → Bool} {l1 l2 : List Nat}
    (h : ∀ x ∈ l1, q x = true) : (l1 ++ l2).takeWhile q = l1 ++ l2.takeWhile q := by
  induction l1 with
  | nil => simp
  | cons a t ih =>
    have ha : q a = true := h a (List.mem_cons_self a t)
    simp only [List.cons_append, List.takeWhile_cons, ha, if_true, List.cons.injEq,
      true_and]
    exact ih (fun x hx => h x (List.mem_cons_of_mem a hx))

lemma dropWhile_append_all {q : Nat → Bool} {l1 l2 : List Nat}
    (h : ∀ x ∈ l1, q x = true) : (l1 ++ l2).dropWhile q = l2.dropWhile q := by
  induction l1 with
  | nil => simp
  | cons a t ih =>
    have ha : q a = true := h a (List.mem_cons_self a t)
    simp only [List.cons_append, List.dropWhile_cons, ha, if_true]
    exact ih (fun x hx => h x (List.mem_cons_of_mem a hx))

lemma splitWs_tokens :
    ∀ s : List Nat, ∀ t ∈ splitWs s,
      (t ≠ [] ∧ ∀ c ∈ t, isSpaceChar c = false) ∧ t <:+: s := by
  have key : ∀ (n : Nat) (s : List Nat), s.length ≤ n → ∀ t ∈ splitWs s,
      (t ≠ [] ∧ ∀ c ∈ t, isSpaceChar c = false) ∧ t <:+: s := by
    intro n
    induction n with
    | zero =>
      intro s hs t ht
      have : s = [] := List.length_eq_zero.mp (Nat.le_zero.mp hs)
      subst this
      rw [splitWs_nil] at ht
      exact absurd ht (List.not_mem_nil t)
    | succ n ih =>
      intro s hs t ht
      cases s with
      | nil =>
        rw [splitWs_nil] at ht
        exact absurd ht (List.not_mem_nil t)
      | cons c u =>
        rw [splitWs_cons] at ht
        simp only [List.length_cons] at hs
        cases hsp : isSpaceChar c with
        | true =>
          rw [if_pos hsp] at ht
          obtain ⟨hprops, hinf⟩ := ih u (by omega) t ht
          exact ⟨hprops, hinf.trans (List.suffix_cons c u).isInfix⟩
        | false =>
          rw [hsp] at ht
          simp only [Bool.false_eq_true, if_false, List.mem_cons] at ht
          rcases ht with rfl | ht
          · refine ⟨⟨by simp, ?_⟩, ?_⟩
            · intro x hx
              rcases List.mem_cons.mp hx with rfl | hx
              · exact hsp
              · have hq := List.mem_takeWhile_imp hx
                simpa using hq
            · have hpre : c :: u.takeWhile (fun d => !isSpaceChar d) <+: c :: u :=
                List.cons_prefix_cons.mpr ⟨rfl,  List.takeWhile_prefix _⟩
              exact hpre.isInfix
          · obtain ⟨hprops, hinf⟩ := ih (u.dropWhile (fun d => !isSpaceChar d))
              (by
                have hle : (u.dropWhile (fun d => !isSpaceChar d)).length ≤ u.length :=
                  (List.dropWhile_sublist _).length_le
                omega) t ht
            refine ⟨hprops, hinf.trans ?_⟩
            exact ((List.dropWhile_suffix _).trans (List.suffix_cons c u)).isInfix
  exact fun s => key s.length s le_rfl

lemma splitWs_joinWith :
    ∀ ts : List (List Nat),
      (∀ t ∈ ts, t ≠ [] ∧ ∀ c ∈ t, isSpaceChar c = false) →
      splitWs (joinWith [32] ts) = ts := by
  intro ts
  induction ts with
  | nil =>
    intro _
    rw [show joinWith [32] [] = [] from rfl, splitWs_nil]
  | cons t rest ih =>
    intro h
    obtain ⟨hne, hch⟩ := h t (List.mem_cons_self t rest)
    cases t with
    | nil => exact absurd rfl hne
    | cons c t' =>
      have hc : isSpaceChar c = false := hch c (List.mem_cons_self c t')
      have ht' : ∀ x ∈ t', (fun d => !isSpaceChar d) x = true := by
        intro x hx
        simp [hch x (List.mem_cons_of_mem c hx)]
      cases rest with
      | nil =>
        rw [show joinWith [32] [c :: t'] = c :: t' from rfl, splitWs_cons, hc]
        simp only [Bool.false_eq_true, if_false]
        have e1 : t'.takeWhile (fun d => !isSpaceChar d) = t' := by
          have h0 : ((t' ++ []).takeWhile fun d => !isSpaceChar d) =
              t' ++ ([].takeWhile fun d => !isSpaceChar d) := takeWhile_append_all ht'
          simpa using h0
        have e2 : t'.dropWhile (fun d => !isSpaceChar d) = [] := by
          have h0 : ((t' ++ []).dropWhile fun d => !isSpaceChar d) =
              ([].dropWhile fun d => !isSpaceChar d) := dropWhile_append_all ht'
          simpa using h0
        rw [e1, e2, splitWs_nil]
      | cons u rest' =>
        have hjoin : joinWith [32] ((c :: t') :: u :: rest') =
            c :: (t' ++ 32 :: joinWith [32] (u :: rest')) := by
          show (c :: t') ++ [32] ++ joinWith [32] (u :: rest') = _
          simp [List.append_assoc]
        rw [hjoin, splitWs_cons, hc]
        simp only [Bool.false_eq_true, if_false]
        have e1 : (t' ++ 32 :: joinWith [32] (u :: rest')).takeWhile
            (fun d => !isSpaceChar d) = t' := by
          rw [takeWhile_append_all ht']
          simp [List.takeWhile_cons, isSpaceChar]
        have e2 : (t' ++ 32 :: joinWith [32] (u :: rest')).dropWhile
            (fun d => !isSpaceChar d) = 32 :: joinWith [32] (u :: rest') := by
          rw [dropWhile_append_all ht']
          simp [List.dropWhile_cons, isSpaceChar]
        rw [e1, e2, splitWs_cons]
        have h32 : isSpaceChar 32 = true := by decide
        rw [if_pos h32]
        rw [ih (fun x hx => h x (List.mem_cons_of_mem _ hx))]

lemma bb_through_append :
    ∀ (a b : List Nat), [33, 33] <:+: (a ++ 32 :: b) →
      [33, 33] <:+: a ∨ [33, 33] <:+: b := by
  intro a
  induction a with
  | nil =>
    intro b h
    rcases List.infix_cons_iff.mp h with hp | hi
    · obtain ⟨h32, -⟩ := List.cons_prefix_cons.mp hp
      omega
    · exact Or.inr hi
  | cons x a' ih =>
    intro b h
    rw [List.cons_append] at h
    rcases List.infix_cons_iff.mp h with hp | hi
    · obtain ⟨hx, hrest⟩ := List.cons_prefix_cons.mp hp
      left
      cases a' with
      | nil =>
        have hbad : ¬ ([33] <+: ([] : List Nat) ++ 32 :: b) := by simp
        exact absurd hrest hbad
      | cons y a'' =>
        have hy : (33 : Nat) = y := by simpa using hrest
        have : [33, 33] <+: x :: y :: a'' :=
          List.cons_prefix_cons.mpr ⟨hx, List.cons_prefix_cons.mpr ⟨hy,  List.nil_prefix⟩⟩
        exact this.isInfix
    · rcases ih b hi with h1 | h2
      · exact Or.inl (h1.trans (List.suffix_cons x a').isInfix)
      · exact Or.inr h2

lemma no_bb_join :
    ∀ ts : List (List Nat), (∀ t ∈ ts, ¬ [33, 33] <:+: t) →
      ¬ [33, 33] <:+: joinWith [32] ts := by
  intro ts
  induction ts with
  | nil =>
    intro _ h
    rw [show joinWith [32] [] = [] from rfl] at h
    simp at h
  | cons t rest ih =>
    intro h
    cases rest with
    | nil => exact h t (List.mem_cons_self t [])
    | cons u rest' =>
      have hjoin : joinWith [32] (t :: u :: rest') =
          t ++ 32 :: joinWith [32] (u :: rest') := by
        show t ++ [32] ++ joinWith [32] (u :: rest') = _
        simp [List.append_assoc]
      rw [hjoin]
      intro hinf
      rcases bb_through_append _ _ hinf with h1 | h2
      · exact h t (List.mem_cons_self t _) h1
      · exact ih (fun x hx => h x (List.mem_cons_of_mem _ hx)) h2

/-!  ## Claim theorems -/

/-- C5: `normalize_measure` is idempotent — a trimmed-lowercased string is
    fixed by trimming and lowercasing again, and no synonym value is
    itself a synonym key. -/
theorem normalize_measure_idem (x : List Nat) :
    normalize_measure (normalize_measure x) = normalize_measure x := by
  cases h : List.lookup (pyStrip (pyLower x)) MEASURE_SYNONYMS with
  | none =>
    have hp : pyStrip (pyLower (pyStrip (pyLower x))) = pyStrip (pyLower x) := by
      calc pyStrip (pyLower (pyStrip (pyLower x)))
          = pyStrip (pyStrip (pyLower (pyLower x))) := by rw [← pyStrip_pyLower]
        _ = pyStrip (pyStrip (pyLower x)) := by rw [pyLower_idem]
        _ = pyStrip (pyLower x) := pyStrip_idem _
    simp only [normalize_measure, h, Option.getD_none, hp]
  | some v =>
    obtain ⟨hv1, hv2⟩ := lookup_syn_val h
    simp only [normalize_measure, h, Option.getD_some, hv1, hv2, Option.getD_none]

/-- C1: a phrase whose normalized form is a key of the derived-metric
    registry resolves, in both resolver implementations, to exactly one
    candidate with `is_derived = true` and score 100, for every catalog
    (the catalog is universally quantified and absent from the result)
    and every `top_n`. -/
theorem derived_shortcircuit (sim : SimFn) (phrase : List Nat)
    (catalog : List VariableRecord) (top_n : Nat) (m : DerivedMetric)
    (h : List.lookup (normalize_measure phrase) DERIVED_METRICS = some m) :
    resolve_measure sim phrase catalog top_n =
        Except.ok [derivedCandidate (normalize_measure phrase) m]
      ∧ SingleAgent.resolve_measure sim phrase catalog top_n =
        Except.ok [derivedCandidate (normalize_measure phrase) m]
      ∧ (derivedCandidate (normalize_measure phrase) m).is_derived = true
      ∧ (derivedCandidate (normalize_measure phrase) m).score = 100 :=
  ⟨resolve_measure_derived_eq sim phrase catalog top_n m h,
   sa_resolve_measure_derived_eq sim phrase catalog top_n m h, rfl, rfl⟩

/-- Witness for C1 at the phrase "Pop Density " (a synonym of the
    registered "population density"), a non-empty catalog, `top_n = 0`. -/
theorem derived_shortcircuit_witness :
    resolve_measure simZero (s2l "Pop Density ") [recIncomeMain] 0 =
        Except.ok [derivedCandidate (normalize_measure (s2l "Pop Density ")) densityMetric]
      ∧ SingleAgent.resolve_measure simZero (s2l "Pop Density ") [recIncomeMain] 0 =
        Except.ok [derivedCandidate (normalize_measure (s2l "Pop Density ")) densityMetric]
      ∧ (derivedCandidate (normalize_measure (s2l "Pop Density ")) densityMetric).is_derived
          = true
      ∧ (derivedCandidate (normalize_measure (s2l "Pop Density ")) densityMetric).score
          = 100 :=
  derived_shortcircuit simZero (s2l "Pop Density ") [recIncomeMain] 0 densityMetric
    (by decide)

/-- C2 (counterexample): with a snapshot exactly at the TTL age and a
    failing network fetch, `get_census_variables_cached` does not return
    the catalog built from the stale snapshot (it raises instead). -/
theorem stale_fallback_cx :
    get_census_variables_cached envStale 14 ≠ Except.ok (buildRecords staleListing) := by
  decide

/-- C2 (amended): if the snapshot exists but its age is at least the TTL
    and the network fetch fails, `get_census_variables_cached` propagates
    the fetch error; the stale snapshot is not used as a fallback. -/
theorem stale_refresh_error (env : CacheEnv) (ttl_days : Nat) (mtime : Int)
    (data : VarListing) (e : PyErr)
    (hs : env.snapshot = some (mtime, data))
    (hage : ¬ env.now - mtime < (ttl_days : Int) * 86400)
    (hnet : env.network = Except.error e) :
    get_census_variables_cached env ttl_days = Except.error e := by
  simp only [get_census_variables_cached, hs, hnet]
  rw [if_neg hage]
  rfl

/-- Witness for the amended C2 at the concrete stale environment. -/
theorem stale_refresh_error_witness :
    get_census_variables_cached envStale 14 = Except.error PyErr.requestError :=
  stale_refresh_error envStale 14 0 staleListing PyErr.requestError rfl (by decide) rfl

/-- C3: at a non-derived phrase and an empty catalog, both resolvers raise
    `KeyError: 'label'` (the empty DataFrame has no columns) instead of
    returning the empty list the spec promises. -/
theorem empty_catalog_raises :
    resolve_measure simZero (s2l "total population") [] 1 =
        Except.error (PyErr.keyError (s2l "label"))
      ∧ SingleAgent.resolve_measure simZero (s2l "total population") [] 1 =
        Except.error (PyErr.keyError (s2l "label")) :=
  ⟨by decide, by decide⟩

/-- C4 (counterexample): at `top_n = 0` and the derived phrase
    "poverty rate", `resolve_measure` returns one candidate, so its length
    exceeds `top_n`. -/
theorem top_n_zero_cx :
    resolve_measure simZero (s2l "poverty rate") [recIncomeMain] 0 =
        Except.ok [derivedCandidate (s2l "poverty rate") povertyMetric]
      ∧ ¬ ([derivedCandidate (s2l "poverty rate") povertyMetric].length ≤ 0) :=
  ⟨rfl, by decide⟩

/-- C4 (amended): for `top_n ≥ 1`, whenever `resolve_measure` returns
    normally its result has length at most `top_n`; and on the non-derived
    path the length equals `min top_n (number of catalog records)`. -/
theorem resolve_length_bound (sim : SimFn) (phrase : List Nat)
    (catalog : List VariableRecord) (top_n : Nat) (l : List Candidate)
    (htop : 1 ≤ top_n)
    (hok : resolve_measure sim phrase catalog top_n = Except.ok l) :
    l.length ≤ top_n ∧
      (List.lookup (normalize_measure phrase) DERIVED_METRICS = none →
        l.length = min top_n catalog.length) := by
  have h0 := hok
  cases hlk : List.lookup (normalize_measure phrase) DERIVED_METRICS with
  | some m =>
    simp only [resolve_measure, hlk] at h0
    injection h0 with h0
    subst h0
    exact ⟨by simpa using htop, fun hn => Option.noConfusion hn⟩
  | none =>
    simp only [resolve_measure, hlk] at h0
    by_cases hc : catalog = []
    · rw [if_pos hc] at h0
      exact Except.noConfusion h0
    · rw [if_neg hc] at h0
      have hl : l = ((sortByScoreDesc (adjustedScore sim (normalize_measure phrase))
          catalog).take top_n).map (mkCandidate sim (normalize_measure phrase)) := by
        cases h0; rfl
      have hlen : l.length = min top_n catalog.length := by
        rw [hl, List.length_map, List.length_take, sortByScoreDesc,
          (List.perm_insertionSort _ catalog).length_eq]
      exact ⟨hlen ▸ Nat.min_le_left _ _, fun _ => hlen⟩

/-- Witness for the amended C4: non-derived phrase, one catalog record,
    `top_n = 2`: one candidate comes back and `min 2 1 = 1`. -/
theorem resolve_length_bound_witness :
    ([mkCandidate simZero (s2l "zz") recIncomeMain].length ≤ 2) ∧
      (List.lookup (normalize_measure (s2l "zz")) DERIVED_METRICS = none →
        [mkCandidate simZero (s2l "zz") recIncomeMain].length =
          min 2 [recIncomeMain].length) :=
  resolve_length_bound simZero (s2l "zz") [recIncomeMain] 2
    [mkCandidate simZero (s2l "zz") recIncomeMain] (by decide) rfl

/-- C6: in the single-agent scoring pipeline, two records with equal fuzzy
    similarities, equal table penalty and equal main-estimate status, of
    which exactly the second carries a demographic qualifier in label or
    concept, differ by exactly 15 points in final score, and the resolver
    output never lists the qualified record's candidate strictly before
    the unqualified one's. -/
theorem demographic_penalty_rank (sim : SimFn) (phrase : List Nat)
    (r1 r2 : VariableRecord)
    (hl : sim (normalize_measure phrase) (pyLower r1.label) =
      sim (normalize_measure phrase) (pyLower r2.label))
    (hc : sim (normalize_measure phrase) (pyLower r1.concept) =
      sim (normalize_measure phrase) (pyLower r2.concept))
    (ht : table_penalty (extractTable r1.variable_id) =
      table_penalty (extractTable r2.variable_id))
    (hm : is_main_estimate r1 = is_main_estimate r2)
    (h1 : has_demographic r1 = false)
    (h2 : has_demographic r2 = true) :
    SingleAgent.adjustedScore sim (normalize_measure phrase) r1 =
        SingleAgent.adjustedScore sim (normalize_measure phrase) r2 + 15
    ∧ ∀ (catalog : List VariableRecord) (top_n : Nat) (l : List Candidate)
        (pre mid post : List Candidate),
        SingleAgent.resolve_measure sim phrase catalog top_n = Except.ok l →
        l ≠ pre ++ SingleAgent.mkCandidate sim (normalize_measure phrase) r2 ::
          (mid ++ SingleAgent.mkCandidate sim (normalize_measure phrase) r1 :: post) := by
  have hbase : baseScore sim (normalize_measure phrase) r1 =
      baseScore sim (normalize_measure phrase) r2 := by
    unfold baseScore
    rw [hl, hc]
  have hscore : SingleAgent.adjustedScore sim (normalize_measure phrase) r1 =
      SingleAgent.adjustedScore sim (normalize_measure phrase) r2 + 15 := by
    simp only [SingleAgent.adjustedScore, SingleAgent.score, h1, h2, hm,
      Bool.false_eq_true, if_false, if_true, hbase, ht]
    cases hmm : is_main_estimate r2 with
    | false => simp only [Bool.false_eq_true, if_false]; ring
    | true => simp only [if_true]; ring
  refine ⟨hscore, fun catalog top_n l pre mid post hok heq => ?_⟩
  have hp := sa_resolve_pairwise sim phrase catalog top_n l hok
  rw [heq] at hp
  have hp2 := (List.pairwise_append.mp hp).2.1
  have hrel := (List.pairwise_cons.mp hp2).1
    (SingleAgent.mkCandidate sim (normalize_measure phrase) r1) (by simp)
  have e1 : (SingleAgent.mkCandidate sim (normalize_measure phrase) r1).score =
      SingleAgent.adjustedScore sim (normalize_measure phrase) r1 := rfl
  have e2 : (SingleAgent.mkCandidate sim (normalize_measure phrase) r2).score =
      SingleAgent.adjustedScore sim (normalize_measure phrase) r2 := rfl
  rw [e1, e2] at hrel
  linarith

/-- Witness for C6: equal-similarity records where only `recVeteran`
    carries a demographic qualifier ("veteran"); the unqualified record
    scores exactly 15 points higher. -/
theorem demographic_penalty_rank_witness :
    SingleAgent.adjustedScore simZero (normalize_measure (s2l "zz")) recIncomeSub =
      SingleAgent.adjustedScore simZero (normalize_measure (s2l "zz")) recVeteran + 15 :=
  (demographic_penalty_rank simZero (s2l "zz") recIncomeSub recVeteran rfl rfl rfl
    (by decide) (by decide) (by decide)).1

/-- C7: in the single-agent scoring pipeline, a record whose variable id
    ends in "_001E" gets the fixed +5 main-estimate boost: with all other
    score components equal, its final score is exactly 5 points higher,
    and the resolver output never lists the non-main record's candidate
    strictly before the main-estimate one's. -/
theorem main_estimate_boost_rank (sim : SimFn) (phrase : List Nat)
    (r1 r2 : VariableRecord)
    (hl : sim (normalize_measure phrase) (pyLower r1.label) =
      sim (normalize_measure phrase) (pyLower r2.label))
    (hc : sim (normalize_measure phrase) (pyLower r1.concept) =
      sim (normalize_measure phrase) (pyLower r2.concept))
    (ht : table_penalty (extractTable r1.variable_id) =
      table_penalty (extractTable r2.variable_id))
    (hd : has_demographic r1 = has_demographic r2)
    (h1 : is_main_estimate r1 = true)
    (h2 : is_main_estimate r2 = false) :
    SingleAgent.adjustedScore sim (normalize_measure phrase) r1 =
        SingleAgent.adjustedScore sim (normalize_measure phrase) r2 + 5
    ∧ ∀ (catalog : List VariableRecord) (top_n : Nat) (l : List Candidate)
        (pre mid post : List Candidate),
        SingleAgent.resolve_measure sim phrase catalog top_n = Except.ok l →
        l ≠ pre ++ SingleAgent.mkCandidate sim (normalize_measure phrase) r2 ::
          (mid ++ SingleAgent.mkCandidate sim (normalize_measure phrase) r1 :: post) := by
  have hbase : baseScore sim (normalize_measure phrase) r1 =
      baseScore sim (normalize_measure phrase) r2 := by
    unfold baseScore
    rw [hl, hc]
  have hscore : SingleAgent.adjustedScore sim (normalize_measure phrase) r1 =
      SingleAgent.adjustedScore sim (normalize_measure phrase) r2 + 5 := by
    simp only [SingleAgent.adjustedScore, SingleAgent.score, h1, h2, hd,
      Bool.false_eq_true, if_false, if_true, hbase, ht]
    cases hdm : has_demographic r2 with
    | false => simp only [Bool.false_eq_true, if_false]; ring
    | true => simp only [if_true]; ring
  refine ⟨hscore, fun catalog top_n l pre mid post hok heq => ?_⟩
  have hp := sa_resolve_pairwise sim phrase catalog top_n l hok
  rw [heq] at hp
  have hp2 := (List.pairwise_append.mp hp).2.1
  have hrel := (List.pairwise_cons.mp hp2).1
    (SingleAgent.mkCandidate sim (normalize_measure phrase) r1) (by simp)
  have e1 : (SingleAgent.mkCandidate sim (normalize_measure phrase) r1).score =
      SingleAgent.adjustedScore sim (normalize_measure phrase) r1 := rfl
  have e2 : (SingleAgent.mkCandidate sim (normalize_measure phrase) r2).score =
      SingleAgent.adjustedScore sim (normalize_measure phrase) r2 := rfl
  rw [e1, e2] at hrel
  linarith

/-- Witness for C7: the main estimate `B19013_001E` scores exactly 5
    points above the otherwise-identical sub-estimate `B19013_002E`. -/
theorem main_estimate_boost_rank_witness :
    SingleAgent.adjustedScore simZero (normalize_measure (s2l "zz")) recIncomeMain =
      SingleAgent.adjustedScore simZero (normalize_measure (s2l "zz")) recIncomeSub + 5 :=
  (main_estimate_boost_rank simZero (s2l "zz") recIncomeMain recIncomeSub rfl rfl rfl
    (by decide) (by decide) (by decide)).1

/-- C8: the exact table-preference penalty values — `none` (no table
    prefix) gets 2, a prefix starting with "DP" gets 0, starting with "S"
    gets 1/2, starting with "B" gets 1, anything else gets 2 — and in both
    pipelines the final (adjusted) score is the score after the demographic
    penalty and main-estimate boost minus this table penalty. -/
theorem table_penalty_exact :
    table_penalty none = 2
    ∧ (∀ p : List Nat, (s2l "DP").isPrefixOf p = true → table_penalty (some p) = 0)
    ∧ (∀ p : List Nat, (s2l "S").isPrefixOf p = true → table_penalty (some p) = 1/2)
    ∧ (∀ p : List Nat, (s2l "B").isPrefixOf p = true → table_penalty (some p) = 1)
    ∧ (∀ p : List Nat, (s2l "DP").isPrefixOf p = false → (s2l "S").isPrefixOf p = false →
        (s2l "B").isPrefixOf p = false → table_penalty (some p) = 2)
    ∧ (∀ (sim : SimFn) (phrase : List Nat) (r : VariableRecord),
        SingleAgent.adjustedScore sim phrase r =
          SingleAgent.score sim phrase r - table_penalty (extractTable r.variable_id))
    ∧ (∀ (sim : SimFn) (phrase : List Nat) (r : VariableRecord),
        adjustedScore sim phrase r =
          baseScore sim phrase r - table_penalty (extractTable r.variable_id)) := by
  refine ⟨rfl, fun p hDP => ?_, fun p hS => ?_, fun p hB => ?_,
    fun p h1 h2 h3 => ?_, fun _ _ _ => rfl, fun _ _ _ => rfl⟩
  · simp only [table_penalty, hDP, if_true]
  · have hDP : (s2l "DP").isPrefixOf p = false := by
      cases p with
      | nil => simp [s2l, List.isPrefixOf] at hS
      | cons c t =>
        have hc : c = 83 := by
          have e : s2l "S" = [83] := rfl
          rw [e] at hS
          simp only [List.isPrefixOf, Bool.and_eq_true, beq_iff_eq] at hS
          exact hS.1.symm
        subst hc
        rfl
    simp only [table_penalty, hDP, hS, if_true, Bool.false_eq_true, if_false]
  · have h1 : (s2l "DP").isPrefixOf p = false := by
      cases p with
      | nil => simp [s2l, List.isPrefixOf] at hB
      | cons c t =>
        have hc : c = 66 := by
          have e : s2l "B" = [66] := rfl
          rw [e] at hB
          simp only [List.isPrefixOf, Bool.and_eq_true, beq_iff_eq] at hB
          exact hB.1.symm
        subst hc
        rfl
    have h2 : (s2l "S").isPrefixOf p = false := by
      cases p with
      | nil => simp [s2l, List.isPrefixOf] at hB
      | cons c t =>
        have hc : c = 66 := by
          have e : s2l "B" = [66] := rfl
          rw [e] at hB
          simp only [List.isPrefixOf, Bool.and_eq_true, beq_iff_eq] at hB
          exact hB.1.symm
        subst hc
        rfl
    simp only [table_penalty, h1, h2, hB, Bool.false_eq_true, if_false, if_true]
  · simp only [table_penalty, h1, h2, h3, Bool.false_eq_true, if_false]

/-- Witness for C8 at four concrete table prefixes, one per branch. -/
theorem table_penalty_exact_witness :
    table_penalty (some (s2l "DP05")) = 0
    ∧ table_penalty (some (s2l "S1701")) = 1/2
    ∧ table_penalty (some (s2l "B19013")) = 1
    ∧ table_penalty (some (s2l "C16001")) = 2 :=
  ⟨table_penalty_exact.2.1 (s2l "DP05") (by decide),
   table_penalty_exact.2.2.1 (s2l "S1701") (by decide),
   table_penalty_exact.2.2.2.1 (s2l "B19013") (by decide),
   table_penalty_exact.2.2.2.2.1 (s2l "C16001") (by decide) (by decide) (by decide)⟩

/-- C10: `get_derived_metric_info` agrees with the resolver's derived
    short-circuit: when it returns an entry, the single-agent resolver
    returns exactly the single derived candidate carrying that same
    registry record (same label, variables, needs_area); when it returns
    `none`, every candidate the resolver returns has `is_derived = false`. -/
theorem derived_info_agreement (m : List Nat) :
    (∀ e : DerivedMetric, get_derived_metric_info m = some e →
      (∀ (sim : SimFn) (catalog : List VariableRecord) (top_n : Nat),
        SingleAgent.resolve_measure sim m catalog top_n =
          Except.ok [derivedCandidate (normalize_measure m) e])
      ∧ (derivedCandidate (normalize_measure m) e).is_derived = true
      ∧ (derivedCandidate (normalize_measure m) e).label = e.label
      ∧ (derivedCandidate (normalize_measure m) e).vars = some e.vars
      ∧ (derivedCandidate (normalize_measure m) e).needs_area = some e.needs_area)
    ∧ (get_derived_metric_info m = none →
      ∀ (sim : SimFn) (catalog : List VariableRecord) (top_n : Nat)
        (l : List Candidate) (c : Candidate),
        SingleAgent.resolve_measure sim m catalog top_n = Except.ok l →
        c ∈ l → c.is_derived = false) := by
  constructor
  · intro e he
    exact ⟨fun sim catalog top_n => sa_resolve_measure_derived_eq sim m catalog top_n e he,
      rfl, rfl, rfl, rfl⟩
  · intro hn sim catalog top_n l c hok hc
    have hn' : List.lookup (normalize_measure m) DERIVED_METRICS = none := hn
    simp only [SingleAgent.resolve_measure, hn'] at hok
    by_cases hcat : catalog = []
    · rw [if_pos hcat] at hok
      exact Except.noConfusion hok
    · rw [if_neg hcat] at hok
      have hl : l = ((sortByScoreDesc (SingleAgent.adjustedScore sim (normalize_measure m))
          catalog).take top_n).map (SingleAgent.mkCandidate sim (normalize_measure m)) := by
        cases hok; rfl
      rw [hl] at hc
      obtain ⟨r, _, rfl⟩ := List.mem_map.mp hc
      rfl

/-- Witness for C10 at the synonym phrase "pop density" (hits the
    "population density" registry entry). -/
theorem derived_info_agreement_witness :
    SingleAgent.resolve_measure simZero (s2l "pop density") [recIncomeMain] 3 =
      Except.ok [derivedCandidate (normalize_measure (s2l "pop density")) densityMetric] :=
  (((derived_info_agreement (s2l "pop density")).1 densityMetric (by decide)).1
    simZero [recIncomeMain] 3)

/-- C9: `clean_census_label` is idempotent, and its output never contains
    the `!!` separator: the replacement pass eliminates every adjacent
    pair of `!` characters, whitespace normalisation cannot create one,
    and on a string with no `!!` all four cleaning passes are the
    identity. -/
theorem clean_census_label_idem (x : List Nat) :
    clean_census_label (clean_census_label x) = clean_census_label x
    ∧ containsSub (s2l "!!") (clean_census_label x) = false := by
  have e4 : s2l "!!" = [33, 33] := rfl
  have e5 : s2l " " = [32] := rfl
  by_cases hx : x = []
  · subst hx
    exact ⟨rfl, by decide⟩
  · have hcx : clean_census_label x =
        joinWith (s2l " ") (splitWs (pyReplace (s2l "!!") (s2l " ")
          (pyReplace (s2l "Annotation!!") [] (pyReplace (s2l "Estimate!!") [] x)))) := by
      rw [clean_census_label, if_neg hx]
    have hnb3 : ¬ [33, 33] <:+: pyReplace (s2l "!!") (s2l " ")
        (pyReplace (s2l "Annotation!!") [] (pyReplace (s2l "Estimate!!") [] x)) := by
      rw [e4, e5]
      exact replace_bb_no_bb _
    have hnby : ¬ [33, 33] <:+: joinWith (s2l " ") (splitWs (pyReplace (s2l "!!")
        (s2l " ") (pyReplace (s2l "Annotation!!") [] (pyReplace (s2l "Estimate!!")
          [] x)))) := by
      rw [e5]
      apply no_bb_join
      intro t ht hbt
      exact hnb3 (hbt.trans (splitWs_tokens _ t ht).2)
    have hcs : containsSub (s2l "!!") (joinWith (s2l " ") (splitWs (pyReplace
        (s2l "!!") (s2l " ") (pyReplace (s2l "Annotation!!") []
          (pyReplace (s2l "Estimate!!") [] x))))) = false := by
      cases hb : containsSub (s2l "!!") (joinWith (s2l " ") (splitWs (pyReplace
          (s2l "!!") (s2l " ") (pyReplace (s2l "Annotation!!") []
            (pyReplace (s2l "Estimate!!") [] x))))) with
      | false => rfl
      | true =>
        have hinf := containsSub_iff.mp hb
        rw [e4] at hinf
        exact absurd hinf hnby
    refine ⟨?_, by rw [hcx]; exact hcs⟩
    rw [hcx]
    by_cases hyz : joinWith (s2l " ") (splitWs (pyReplace (s2l "!!") (s2l " ")
        (pyReplace (s2l "Annotation!!") [] (pyReplace (s2l "Estimate!!") [] x)))) = []
    · rw [hyz]
      rfl
    · simp only [clean_census_label]
      rw [if_neg hyz]
      have h1 : pyReplace (s2l "Estimate!!") [] (joinWith (s2l " ") (splitWs
          (pyReplace (s2l "!!") (s2l " ") (pyReplace (s2l "Annotation!!") []
            (pyReplace (s2l "Estimate!!") [] x))))) = joinWith (s2l " ") (splitWs
          (pyReplace (s2l "!!") (s2l " ") (pyReplace (s2l "Annotation!!") []
            (pyReplace (s2l "Estimate!!") [] x)))) := by
        apply pyReplace_of_not_infix
        intro hinf
        apply hnby
        have e2 : s2l "Estimate!!" = s2l "Estimate" ++ [33, 33] := rfl
        rw [e2] at hinf
        exact ((List.suffix_append (s2l "Estimate") [33, 33]).isInfix).trans hinf
      have h2 : pyReplace (s2l "Annotation!!") [] (joinWith (s2l " ") (splitWs
          (pyReplace (s2l "!!") (s2l " ") (pyReplace (s2l "Annotation!!") []
            (pyReplace (s2l "Estimate!!") [] x))))) = joinWith (s2l " ") (splitWs
          (pyReplace (s2l "!!") (s2l " ") (pyReplace (s2l "Annotation!!") []
            (pyReplace (s2l "Estimate!!") [] x)))) := by
        apply pyReplace_of_not_infix
        intro hinf
        apply hnby
        have e3 : s2l "Annotation!!" = s2l "Annotation" ++ [33, 33] := rfl
        rw [e3] at hinf
        exact ((List.suffix_append (s2l "Annotation") [33, 33]).isInfix).trans hinf
      have h3 : pyReplace (s2l "!!") (s2l " ") (joinWith (s2l " ") (splitWs
          (pyReplace (s2l "!!") (s2l " ") (pyReplace (s2l "Annotation!!") []
            (pyReplace (s2l "Estimate!!") [] x))))) = joinWith (s2l " ") (splitWs
          (pyReplace (s2l "!!") (s2l " ") (pyReplace (s2l "Annotation!!") []
            (pyReplace (s2l "Estimate!!") [] x)))) := by
        apply pyReplace_of_not_infix
        rw [e4]
        exact hnby
      rw [h1, h2, h3]
      have hsplit : splitWs (joinWith (s2l " ") (splitWs (pyReplace (s2l "!!")
          (s2l " ") (pyReplace (s2l "Annotation!!") [] (pyReplace (s2l "Estimate!!")
            [] x))))) = splitWs (pyReplace (s2l "!!") (s2l " ") (pyReplace
          (s2l "Annotation!!") [] (pyReplace (s2l "Estimate!!") [] x))) := by
        rw [e5]
        exact splitWs_joinWith _ (fun t ht => (splitWs_tokens _ t ht).1)
      rw [hsplit]

end Census
